import Mathlib

/-!
Verification development for the rover remote-zip extractor (main.go).

The Go program extracts one named entry from a ZIP archive hosted on an
HTTP server, using the external ranger library for ranged reads.  We give
a shallow embedding of the functions in main.go (downloadFile, findFile,
progressBar, the default-filename logic of init, and the control flow of
main), together with spec-level models of the parts of the system that
live outside this repository (the ranger ReadAt contract and the HTTP
client timeout semantics), and prove properties about them.
-/

/-- A Go error value, modelled as its message string. -/
abbrev GoErr := String

/-- Model of the output sink (the os.File used for output).  The field
written records the bytes written so far; the field failing models a
sink whose Write calls fail (os.File.Write returning an error), in which
case a write appends nothing and reports an error. -/
structure Sink where
  written : List Nat
  failing : Bool
deriving DecidableEq, Repr

/-- Model of os.File.Write: returns the updated sink and the error the
call reports.  The Go code in downloadFile discards both return values. -/
def Sink.write (w : Sink) (bs : List Nat) : Sink × Option GoErr :=
  if w.failing then (w, some "write error")
  else ({ w with written := w.written ++ bs }, none)

/-- The buffer size used by the copy loop in downloadFile: 128*1024. -/
def bufSize : Nat := 128 * 1024

/-- Model of the io.ReadCloser obtained from zip.File.Open: data is the
sequence of decompressed bytes the reader delivers, and readErr is the
error (if any) the reader reports once the data is exhausted or cut
short, for example a decompression or checksum failure.  The Go copy
loop discards the error returned by io.ReadFull. -/
structure ZipRC where
  data : List Nat
  readErr : Option GoErr
deriving DecidableEq, Repr

deriving instance DecidableEq for Except

/-- Model of archive/zip zip.File: the entry name, the outcome of
calling Open on it, and the recorded uncompressed size. -/
structure ZipFile where
  name : String
  openResult : Except GoErr ZipRC
  uncompressedSize64 : Nat
deriving DecidableEq, Repr

/-- The copy loop of downloadFile (main.go lines 116-127): repeatedly
io.ReadFull into a bufSize buffer; while the read count n is positive,
write buf[:n] to the sink and continue; break when n = 0.  io.ReadFull
delivers min bufSize (remaining data) bytes per call; its error return
and the Write return values are discarded, exactly as in the source. -/
def copyLoop (data : List Nat) (w : Sink) : Sink :=
  if data = [] then w
  else copyLoop (data.drop bufSize) (w.write (data.take bufSize)).1
termination_by data.length
decreasing_by
  have hb : 0 < bufSize := by decide
  have hd : ¬ data = [] := by assumption
  have hl : 0 < data.length := List.length_pos.mpr hd
  simp only [List.length_drop]
  omega

/-- Embedding of downloadFile (main.go lines 97-137).  The worker
goroutine opens the entry; on failure it sends the open error on the
completion channel, otherwise it runs the copy loop and sends nil; the
caller returns the received value.  The returned pair is (sink state,
returned error).  The asynchronous structure is modelled separately by
the step relation below; this function is the sequential meaning. -/
def downloadFile (file : ZipFile) (writer : Sink) : Sink × Option GoErr :=
  match file.openResult with
  | .error e => (writer, some e)
  | .ok rc => (copyLoop rc.data writer, none)

/-- Model of archive/zip zip.Reader: the File field is a slice of
entries, nil (none) when reading failed. -/
structure ZipReader where
  file : Option (List ZipFile)
deriving DecidableEq, Repr

/-- The search loop of findFile (main.go lines 144-150). -/
def findInList : List ZipFile → String → Except GoErr ZipFile
  | [], _ => .error "Unable to find file"
  | f :: fs, filename => if f.name = filename then .ok f else findInList fs filename

/-- Embedding of findFile (main.go lines 139-151): error on a nil File
slice, otherwise return the first entry whose Name equals filename, or
an error when none matches.  The function only reads the reader. -/
def findFile (reader : ZipReader) (filename : String) : Except GoErr ZipFile :=
  match reader.file with
  | none => .error "file read error"
  | some files => findInList files filename

/-- Strip trailing path separators, as Go path/filepath.Base does first
(on unix the separator is the slash). -/
def dropTrailingSeps (path : List Char) : List Char :=
  (path.reverse.dropWhile (fun c => c = '/')).reverse

/-- Keep the suffix after the last path separator. -/
def afterLastSep (path : List Char) : List Char :=
  (path.reverse.takeWhile (fun c => decide (c ≠ '/'))).reverse

/-- Embedding of Go path/filepath.Base on unix: the dot for an empty
path, otherwise strip trailing separators, take the last path element,
and return a separator when that element is empty (path of slashes). -/
def filepathBase (path : List Char) : List Char :=
  if path = [] then ['.']
  else
    let p := dropTrailingSeps path
    let last := afterLastSep p
    if last = [] then ['/'] else last

/-- Embedding of the default output filename rule in init (main.go line
54): localFile = remoteFile[:len(filepath.Base(remoteFile))], the prefix
of remoteFile whose length is the length of its basename. -/
def defaultLocalFile (remoteFile : List Char) : List Char :=
  remoteFile.take (filepathBase remoteFile).length

/-- Decimal digit characters of a natural number, most significant
first, as produced for the d verb of fmt.Sprintf. -/
def natDigits (n : Nat) : List Char :=
  if n < 10 then [Nat.digitChar n]
  else natDigits (n / 10) ++ [Nat.digitChar (n % 10)]
termination_by n
decreasing_by
  exact Nat.div_lt_self (by omega) (by decide)

/-- Embedding of fmt.Sprintf with verb percent-3-d: the decimal form of
the argument, left padded with spaces to at least three characters. -/
def sprintf3d (p : Int) : List Char :=
  let s : List Char := if p < 0 then '-' :: natDigits p.natAbs else natDigits p.toNat
  List.replicate (3 - s.length) ' ' ++ s

/-- Embedding of progressBar (main.go lines 60-95), parametrised by the
terminal width the source obtains from the terminal package (or assumes
to be 80 on windows).  Go int arithmetic is modelled by Int with
truncated division; the two for loops append max(0, currentProgress)
equal signs and max(0, width - currentProgress) spaces. -/
def progressBarRender (termWidth progress : Int) : List Char :=
  let width := termWidth - 40
  let currentProgress := Int.div (progress * width) 100
  ['['] ++ List.replicate currentProgress.toNat '='
        ++ ['>']
        ++ List.replicate (width - currentProgress).toNat ' '
        ++ [']', ' '] ++ sprintf3d progress ++ ['%']

/-- Error kinds of the remote range layer, as named by the spec. -/
inductive RangerError
  | invalidRange
  | rangeUnsupported
  | shortRead
  | rangeMismatch
  | transportTimeout
  | transportError
deriving DecidableEq, Repr

/-- Modelled from the spec: the ranger library that backs main.go is not
part of this repository, so the RemoteRangeSource is modelled from
section 3 and 4.1 of the spec.  The ground-truth remote object is the
byte sequence content; TotalLength is its length. -/
structure RemoteResource where
  content : List Nat
deriving DecidableEq, Repr

/-- Modelled from the spec: Length() returns the total byte length
established at construction. -/
def RemoteResource.totalLength (r : RemoteResource) : Nat := r.content.length

/-- Modelled from the spec: ReadAt(offset, length) returns exactly
length bytes starting at offset when 0 < length and
offset + length <= Length(), and fails with InvalidRange otherwise. -/
def RemoteResource.readAt (r : RemoteResource) (offset len : Nat) :
    Except RangerError (List Nat) :=
  if len = 0 then .error .invalidRange
  else if offset + len ≤ r.content.length then .ok ((r.content.drop offset).take len)
  else .error .invalidRange

/-- One nanosecond count for time.Second. -/
def timeSecond : Int := 1000000000

/-- Model of net/http Client: only the Timeout field matters here,
in nanoseconds (time.Duration). -/
structure HTTPClient where
  timeoutNs : Int
deriving DecidableEq, Repr

/-- Embedding of the client construction in main (main.go lines
171-173): Timeout: time.Duration(timeout) * time.Second. -/
def sessionHTTPClient (timeoutFlag : Int) : HTTPClient :=
  { timeoutNs := timeoutFlag * timeSecond }

/-- Embedding of the -t flag registration in init (main.go line 34):
the value supplied on the command line, with default 5. -/
def timeoutFlagValue (provided : Option Int) : Int := provided.getD 5

/-- Modelled from the spec: the Timeout of a net/http Client bounds each
individual request, so a request completes exactly when its own duration
fits within the timeout. -/
def requestWithinTimeout (c : HTTPClient) (reqDurationNs : Int) : Bool :=
  reqDurationNs ≤ c.timeoutNs

/-- Modelled from the spec: a session of many range requests completes
when every request meets its own, fresh timeout budget; the durations do
not accumulate against a whole-extraction limit. -/
def sessionRequestsComplete (c : HTTPClient) (reqDurationsNs : List Int) : Bool :=
  reqDurationsNs.all (requestWithinTimeout c)

/-- The files and streams main touches: the created local file sink, the
standard output sink, and the name passed to os.Create if it was called. -/
structure World where
  fileSink : Sink
  stdoutSink : Sink
  created : Option String
deriving DecidableEq, Repr

/-- Outcomes of the external calls main makes, supplied as environment:
ranger.NewReader, zip.NewReader, and os.Create. -/
structure MainEnv where
  newReaderResult : Except GoErr Unit
  zipReaderResult : Except GoErr ZipReader
  createResult : Except GoErr Unit
deriving DecidableEq, Repr

/-- Result of running main: normal completion, listing mode completion,
or termination through os.Exit with a code and the message printed
before it. -/
inductive MainOutcome
  | ok (w : World)
  | listed (w : World)
  | exited (code : Nat) (msg : String) (w : World)
deriving DecidableEq, Repr

/-- Embedding of main (main.go lines 165-222).  The url.Parse error is
discarded by the source (err is overwritten at once), and the URL is
printed back as the source string.  Each error branch prints its message
and exits with status 1.  When localFile is the dash, standard output is
used and os.Create is never called; otherwise os.Create(localFile) runs
and its error is checked.  listFiles output and its ignored error are
not modelled beyond the listed outcome. -/
def mainGo (sourceURL remoteFile localFile : String) (showFiles : Bool)
    (env : MainEnv) (w : World) : MainOutcome :=
  match env.newReaderResult with
  | .error _ => .exited 1 ("Unable to create reader for url: " ++ sourceURL ++ "\n") w
  | .ok _ =>
    match env.zipReaderResult with
    | .error _ => .exited 1 ("Unable to create zip reader for url: " ++ sourceURL ++ "\n") w
    | .ok zipreader =>
      if showFiles then .listed w
      else
        let w1 : World := if localFile = "-" then w else { w with created := some localFile }
        let createErr : Option GoErr :=
          if localFile = "-" then none
          else match env.createResult with
               | .error e => some e
               | .ok _ => none
        match createErr with
        | some _ => .exited 1 ("Unable to create local file: " ++ localFile) w1
        | none =>
          match findFile zipreader remoteFile with
          | .error _ => .exited 1 ("Unable find file: " ++ remoteFile ++ " in zip.") w1
          | .ok foundFile =>
            if localFile = "-" then
              match downloadFile foundFile w1.stdoutSink with
              | (s, some _) =>
                  .exited 1 ("Unable read file " ++ remoteFile ++ " from zip.")
                    { w1 with stdoutSink := s }
              | (s, none) => .ok { w1 with stdoutSink := s }
            else
              match downloadFile foundFile w1.fileSink with
              | (s, some _) =>
                  .exited 1 ("Unable read file " ++ remoteFile ++ " from zip.")
                    { w1 with fileSink := s }
              | (s, none) => .ok { w1 with fileSink := s }

/-- The decompressed data split into the successive buffers the copy
loop reads: chunks of bufSize bytes, with a shorter final chunk. -/
def chunksOf (data : List Nat) : List (List Nat) :=
  if data = [] then []
  else data.take bufSize :: chunksOf (data.drop bufSize)
termination_by data.length
decreasing_by
  have hb : 0 < bufSize := by decide
  have hd : ¬ data = [] := by assumption
  have hl : 0 < data.length := List.length_pos.mpr hd
  simp only [List.length_drop]
  omega

/-- Write a list of buffers to the sink in order, discarding the Write
errors as the source does. -/
def writeChunks (cs : List (List Nat)) (w : Sink) : Sink :=
  match cs with
  | [] => w
  | c :: rest => writeChunks rest (w.write c).1

/-- One observable action of the worker goroutine in downloadFile:
either a Write of one buffer to the sink, or the send of the final
error value on the completion channel errCh. -/
inductive WorkerAction
  | wWrite (chunk : List Nat)
  | wSend (e : Option GoErr)
deriving DecidableEq, Repr

/-- The sequence of actions the worker goroutine of downloadFile
performs for a given entry: on open failure just the send of that
error; otherwise the buffer writes of the copy loop followed by the
send of nil. -/
def workerProgram (file : ZipFile) : List WorkerAction :=
  match file.openResult with
  | .error e => [WorkerAction.wSend (some e)]
  | .ok rc => (chunksOf rc.data).map WorkerAction.wWrite ++ [WorkerAction.wSend none]

/-- State of the concurrent execution of downloadFile: the actions the
worker has not yet performed, the value the caller has received from
the unbuffered channel (none while it is still blocked on the receive),
and the sink. -/
structure ConcState where
  workerRest : List WorkerAction
  received : Option (Option GoErr)
  sink : Sink
deriving DecidableEq, Repr

/-- Small-step semantics of the goroutine plus channel pattern of
downloadFile.  A write action updates the sink; a send on the
unbuffered channel is a rendezvous with the blocked receiving caller,
so it fires only while the caller has not yet received, and delivers
the value to the caller. -/
inductive ConcStep : ConcState → ConcState → Prop
  | write (c : List Nat) (rest : List WorkerAction) (rv : Option (Option GoErr)) (w : Sink) :
      ConcStep ⟨WorkerAction.wWrite c :: rest, rv, w⟩ ⟨rest, rv, (w.write c).1⟩
  | sync (e : Option GoErr) (rest : List WorkerAction) (w : Sink) :
      ConcStep ⟨WorkerAction.wSend e :: rest, none, w⟩ ⟨rest, some e, w⟩

/-- Executions: the reflexive transitive closure of ConcStep. -/
def ConcSteps : ConcState → ConcState → Prop := Relation.ReflTransGen ConcStep

/-- The state in which downloadFile(file, writer) starts its worker. -/
def initConcState (file : ZipFile) (writer : Sink) : ConcState :=
  ⟨workerProgram file, none, writer⟩

/-- A state with no enabled step. -/
def ConcFinal (s : ConcState) : Prop := ∀ t, ¬ ConcStep s t

/-- A state whose worker has run out of actions is final. -/
theorem concFinal_of_done (s : ConcState) (h : s.workerRest = []) : ConcFinal s := by
  intro t hstep
  cases hstep <;> simp_all

/-- The step relation is deterministic: the worker is the only actor
that changes the state, and at most one of its actions is enabled. -/
theorem concStep_deterministic {s t₁ t₂ : ConcState}
    (h₁ : ConcStep s t₁) (h₂ : ConcStep s t₂) : t₁ = t₂ := by
  cases h₁ <;> cases h₂ <;> simp_all


/-- On a sink whose writes succeed, the copy loop appends exactly the
delivered data, in order. -/
theorem copyLoop_ok (data : List Nat) (w : Sink) (h : w.failing = false) :
    copyLoop data w = ⟨w.written ++ data, false⟩ := by
  rw [copyLoop]
  by_cases hd : data = []
  · cases w
    subst hd
    simp_all
  · simp only [hd, if_false, Sink.write, h, Bool.false_eq_true]
    rw [copyLoop_ok _ _ rfl]
    simp [List.append_assoc, List.take_append_drop]
termination_by data.length
decreasing_by
  have hb : 0 < bufSize := by decide
  have hl : 0 < data.length := List.length_pos.mpr hd
  simp only [List.length_drop]
  omega

/-- On a sink whose writes fail, the copy loop changes nothing: the Go
code ignores the Write results, so the failures are invisible. -/
theorem copyLoop_failing (data : List Nat) (w : Sink) (h : w.failing = true) :
    copyLoop data w = w := by
  rw [copyLoop]
  by_cases hd : data = []
  · simp [hd]
  · simp only [hd, if_false, Sink.write, h, if_true]
    exact copyLoop_failing _ _ h
termination_by data.length
decreasing_by
  have hb : 0 < bufSize := by decide
  have hl : 0 < data.length := List.length_pos.mpr hd
  simp only [List.length_drop]
  omega

/-- C1: for every valid byte window (offset, length) with 0 < length
and offset + length within the total length, ReadAt returns exactly
length bytes, equal to the bytes at that position of the ground-truth
remote object.  The ranger layer is modelled from the spec because its
code is not part of this repository. -/
theorem readAt_valid_window (r : RemoteResource) (offset len : Nat)
    (hpos : 0 < len) (hbound : offset + len ≤ r.totalLength) :
    ∃ bs, r.readAt offset len = Except.ok bs ∧ bs.length = len ∧
      bs = (r.content.drop offset).take len := by
  refine ⟨(r.content.drop offset).take len, ?_, ?_, rfl⟩
  · unfold RemoteResource.readAt
    have h0 : ¬ len = 0 := by omega
    have hb : offset + len ≤ r.content.length := hbound
    simp [h0, hb]
  · have hb : offset + len ≤ r.content.length := hbound
    simp only [List.length_take, List.length_drop]
    omega

/-- C1 witness at a concrete resource and window. -/
theorem readAt_valid_window_witness :
    ∃ bs, (RemoteResource.mk [10, 20, 30, 40]).readAt 1 2 = Except.ok bs ∧
      bs.length = 2 ∧
      bs = (([10, 20, 30, 40] : List Nat).drop 1).take 2 :=
  readAt_valid_window (RemoteResource.mk [10, 20, 30, 40]) 1 2 (by decide) (by decide)

/-- An entry whose reader delivers three bytes and then reports a read
error, which the copy loop discards. -/
def corruptRC : ZipRC := ⟨[1, 2, 3], some "unexpected EOF"⟩

/-- The zip entry wrapping corruptRC. -/
def corruptEntry : ZipFile := ⟨"a.bin", Except.ok corruptRC, 1000⟩

/-- A fresh working sink. -/
def emptySink : Sink := ⟨[], false⟩

/-- A sink whose every Write reports an error. -/
def brokenSink : Sink := ⟨[], true⟩

/-- An entry whose reader delivers two bytes and no error. -/
def okRC : ZipRC := ⟨[7, 8], none⟩

/-- The zip entry wrapping okRC. -/
def okEntry : ZipFile := ⟨"b.bin", Except.ok okRC, 2⟩

/-- An entry whose Open fails. -/
def badEntry : ZipFile := ⟨"broken", Except.error "open failed", 0⟩

/-- C2 counterexample: a mid-stream read error (reader reports an error
after three bytes) and a failing output writer both leave downloadFile
returning nil, so failures of the read and write steps of the copy loop
are swallowed, contrary to the claim. -/
theorem downloadFile_swallows_failures :
    corruptEntry.openResult = Except.ok corruptRC ∧
    corruptRC.readErr = some "unexpected EOF" ∧
    (downloadFile corruptEntry emptySink).2 = none ∧
    brokenSink.failing = true ∧
    (downloadFile okEntry brokenSink).2 = none ∧
    (downloadFile okEntry brokenSink).1.written = [] := by
  refine ⟨rfl, rfl, ?_, rfl, ?_, ?_⟩
  · simp [downloadFile, corruptEntry]
  · simp [downloadFile, okEntry]
  · have h := copyLoop_failing okRC.data ⟨[], true⟩ rfl
    simp [downloadFile, okEntry, brokenSink, h]

/-- C2 (amended): downloadFile returns the error of a failed Open to
its caller, and returns nil in every other case; the errors of the
read and write steps of the copy loop are discarded, not returned. -/
theorem downloadFile_error_propagation (file : ZipFile) (w : Sink) :
    (∀ e, file.openResult = Except.error e → downloadFile file w = (w, some e)) ∧
    (∀ rc, file.openResult = Except.ok rc → (downloadFile file w).2 = none) := by
  constructor
  · intro e he
    simp [downloadFile, he]
  · intro rc hrc
    simp [downloadFile, hrc]

/-- C2 witness: the amended propagation at concrete entries. -/
theorem downloadFile_error_propagation_witness :
    downloadFile badEntry emptySink = (emptySink, some "open failed") ∧
    (downloadFile corruptEntry brokenSink).2 = none :=
  ⟨(downloadFile_error_propagation badEntry emptySink).1 "open failed" rfl,
   (downloadFile_error_propagation corruptEntry brokenSink).2 corruptRC rfl⟩

/-- A zero-length entry: Open succeeds and the reader is exhausted at
once. -/
def emptyRC : ZipRC := ⟨[], none⟩

/-- The empty zip entry wrapping emptyRC, of uncompressed size zero. -/
def emptyEntry : ZipFile := ⟨"empty.txt", Except.ok emptyRC, 0⟩

/-- C4: for a zero-length entry whose Open succeeds with an immediately
exhausted reader, downloadFile writes nothing and returns nil. -/
theorem downloadFile_zero_length_entry (file : ZipFile) (w : Sink) (rc : ZipRC)
    (hopen : file.openResult = Except.ok rc) (hdata : rc.data = [])
    (hsize : file.uncompressedSize64 = 0) :
    downloadFile file w = (w, none) := by
  simp only [downloadFile, hopen]
  rw [hdata, copyLoop]
  simp

/-- C4 witness: the concrete empty entry. -/
theorem downloadFile_zero_length_entry_witness :
    downloadFile emptyEntry emptySink = (emptySink, none) :=
  downloadFile_zero_length_entry emptyEntry emptySink emptyRC rfl rfl rfl

/-- An ok result of the search loop is a member of the list and has the
searched name. -/
theorem findInList_ok_sound (fs : List ZipFile) (n : String) (f : ZipFile)
    (h : findInList fs n = Except.ok f) : f ∈ fs ∧ f.name = n := by
  induction fs with
  | nil => simp [findInList] at h
  | cons g gs ih =>
      by_cases hg : g.name = n
      · simp only [findInList, hg, if_true] at h
        cases h
        exact ⟨List.mem_cons_self _ _, hg⟩
      · simp only [findInList, hg, if_false] at h
        obtain ⟨hmem, hname⟩ := ih h
        exact ⟨List.mem_cons_of_mem g hmem, hname⟩

/-- When some member has the searched name, the search loop returns an
ok result with that name. -/
theorem findInList_ok_complete (fs : List ZipFile) (n : String)
    (h : ∃ f ∈ fs, f.name = n) :
    ∃ f, findInList fs n = Except.ok f ∧ f.name = n := by
  induction fs with
  | nil => simp at h
  | cons g gs ih =>
      by_cases hg : g.name = n
      · exact ⟨g, by simp [findInList, hg], hg⟩
      · obtain ⟨f, hf, hfn⟩ := h
        rcases List.mem_cons.mp hf with rfl | hmem
        · exact absurd hfn hg
        · obtain ⟨f, h1, h2⟩ := ih ⟨f, hmem, hfn⟩
          exact ⟨f, by simp [findInList, hg, h1], h2⟩

/-- When no member has the searched name, the search loop fails. -/
theorem findInList_error (fs : List ZipFile) (n : String)
    (h : ∀ f ∈ fs, f.name ≠ n) :
    findInList fs n = Except.error "Unable to find file" := by
  induction fs with
  | nil => rfl
  | cons g gs ih =>
      have hg : g.name ≠ n := h g (List.mem_cons_self g gs)
      simp only [findInList, hg, if_false]
      exact ih fun f hf => h f (List.mem_cons_of_mem g hf)

/-- C7: on a reader with a non-nil File list, findFile returns an entry
named filename exactly when such an entry exists, and a non-nil error
otherwise.  The embedding is a pure function of the reader, matching
the source, which only reads the File slice. -/
theorem findFile_spec (reader : ZipReader) (files : List ZipFile) (filename : String)
    (h : reader.file = some files) :
    ((∃ f, findFile reader filename = Except.ok f ∧ f.name = filename) ↔
       ∃ f ∈ files, f.name = filename) ∧
    ((¬ ∃ f ∈ files, f.name = filename) →
       ∃ e, findFile reader filename = Except.error e) := by
  constructor
  · constructor
    · rintro ⟨f, hok, hname⟩
      simp only [findFile, h] at hok
      obtain ⟨hmem, _⟩ := findInList_ok_sound files filename f hok
      exact ⟨f, hmem, hname⟩
    · intro hex
      obtain ⟨f, h1, h2⟩ := findInList_ok_complete files filename hex
      exact ⟨f, by simp [findFile, h, h1], h2⟩
  · intro hnone
    refine ⟨"Unable to find file", ?_⟩
    simp only [findFile, h]
    exact findInList_error files filename (by push_neg at hnone; exact hnone)

/-- C7 witness: a concrete reader holding okEntry, searched for a
present and an absent name. -/
theorem findFile_spec_witness :
    ((∃ f, findFile ⟨some [okEntry]⟩ "b.bin" = Except.ok f ∧ f.name = "b.bin") ↔
       ∃ f ∈ [okEntry], f.name = "b.bin") ∧
    ((¬ ∃ f ∈ [okEntry], f.name = "b.bin") →
       ∃ e, findFile ⟨some [okEntry]⟩ "b.bin" = Except.error e) :=
  findFile_spec ⟨some [okEntry]⟩ [okEntry] "b.bin" rfl

/-- Dropping while a predicate fails on every element changes nothing. -/
theorem dropWhile_of_all_neg {α : Type} (p : α → Bool) (l : List α)
    (h : ∀ a ∈ l, p a = false) : l.dropWhile p = l := by
  cases l with
  | nil => rfl
  | cons x xs =>
      have hx : p x = false := h x (List.mem_cons_self x xs)
      simp [List.dropWhile_cons, hx]

/-- Taking while a predicate holds on every element keeps everything. -/
theorem takeWhile_of_all_pos {α : Type} (p : α → Bool) (l : List α)
    (h : ∀ a ∈ l, p a = true) : l.takeWhile p = l := by
  induction l with
  | nil => rfl
  | cons x xs ih =>
      have hx : p x = true := h x (List.mem_cons_self x xs)
      simp only [List.takeWhile_cons, hx, if_true]
      rw [ih fun a ha => h a (List.mem_cons_of_mem x ha)]

/-- On a path without separators, filepath.Base is the path itself. -/
theorem filepathBase_no_sep (r : List Char) (hne : r ≠ []) (hnosep : '/' ∉ r) :
    filepathBase r = r := by
  have hall : ∀ a ∈ r.reverse, a ≠ '/' := by
    intro a ha
    intro hc
    exact hnosep (hc ▸ List.mem_reverse.mp ha)
  have hdrop : dropTrailingSeps r = r := by
    unfold dropTrailingSeps
    rw [dropWhile_of_all_neg _ _ (fun a ha => by simp [hall a ha])]
    exact List.reverse_reverse r
  have htake : afterLastSep r = r := by
    unfold afterLastSep
    rw [takeWhile_of_all_pos _ _ (fun a ha => by simp [hall a ha])]
    exact List.reverse_reverse r
  unfold filepathBase
  simp only [hne, if_false, hdrop, htake]

/-- C9 counterexample: the remote filename a/a contains a separator,
yet the default local filename coincides with filepath.Base, so the
claimed only-when direction fails. -/
theorem defaultLocalFile_sep_coincidence :
    defaultLocalFile ['a', '/', 'a'] = filepathBase ['a', '/', 'a'] ∧
    defaultLocalFile ['a', '/', 'a'] = ['a'] ∧
    '/' ∈ ['a', '/', 'a'] := by
  refine ⟨?_, ?_, by decide⟩ <;> rfl

/-- C9 (amended): the default local filename is the prefix of the
remote filename whose length is len(filepath.Base(remoteFile)); it
equals the basename whenever the remote filename contains no directory
separator (though it can also coincide otherwise), and e.g. dir/a.txt
yields dir/a rather than a.txt. -/
theorem defaultLocalFile_amended (r : List Char)
    (hne : r ≠ []) (hnosep : '/' ∉ r) :
    defaultLocalFile r = r.take (filepathBase r).length ∧
    defaultLocalFile r = filepathBase r ∧
    defaultLocalFile ('d' :: 'i' :: 'r' :: '/' :: 'a' :: '.' :: 't' :: 'x' :: 't' :: []) =
      'd' :: 'i' :: 'r' :: '/' :: 'a' :: [] := by
  refine ⟨rfl, ?_, by rfl⟩
  rw [defaultLocalFile, filepathBase_no_sep r hne hnosep]
  exact List.take_length r

/-- C9 witness: the no-separator case at a concrete filename. -/
theorem defaultLocalFile_amended_witness :
    defaultLocalFile ['a', '.', 't', 'x', 't'] =
      (['a', '.', 't', 'x', 't'] : List Char).take
        (filepathBase ['a', '.', 't', 'x', 't']).length ∧
    defaultLocalFile ['a', '.', 't', 'x', 't'] = filepathBase ['a', '.', 't', 'x', 't'] ∧
    defaultLocalFile ('d' :: 'i' :: 'r' :: '/' :: 'a' :: '.' :: 't' :: 'x' :: 't' :: []) =
      'd' :: 'i' :: 'r' :: '/' :: 'a' :: [] :=
  defaultLocalFile_amended ['a', '.', 't', 'x', 't'] (by decide) (by decide)

/-- The copy loop is the sequential writing of the successive buffers. -/
theorem copyLoop_eq_writeChunks (data : List Nat) (w : Sink) :
    copyLoop data w = writeChunks (chunksOf data) w := by
  by_cases hd : data = []
  · subst hd
    rw [copyLoop, chunksOf]
    simp [writeChunks]
  · rw [copyLoop, chunksOf]
    simp only [hd, if_false, writeChunks]
    exact copyLoop_eq_writeChunks (data.drop bufSize) _
termination_by data.length
decreasing_by
  have hb : 0 < bufSize := by decide
  have hl : 0 < data.length := List.length_pos.mpr hd
  simp only [List.length_drop]
  omega

/-- Running the worker to completion: the buffer writes happen in
order, then the rendezvous on the completion channel delivers the final
value to the caller. -/
theorem concSteps_run_chunks (cs : List (List Nat)) (e : Option GoErr) (w : Sink) :
    ConcSteps ⟨cs.map WorkerAction.wWrite ++ [WorkerAction.wSend e], none, w⟩
      ⟨[], some e, writeChunks cs w⟩ := by
  induction cs generalizing w with
  | nil =>
      exact Relation.ReflTransGen.single (ConcStep.sync e [] w)
  | cons c rest ih =>
      exact Relation.ReflTransGen.head (ConcStep.write c _ none w) (ih ((w.write c).1))

/-- From the initial state of downloadFile, execution reaches the state
whose sink and received value are those of the sequential function. -/
theorem concSteps_run (file : ZipFile) (w : Sink) :
    ConcSteps (initConcState file w)
      ⟨[], some (downloadFile file w).2, (downloadFile file w).1⟩ := by
  cases hopen : file.openResult with
  | error e =>
      simp only [initConcState, workerProgram, downloadFile, hopen]
      exact Relation.ReflTransGen.single (ConcStep.sync (some e) [] w)
  | ok rc =>
      simp only [initConcState, workerProgram, downloadFile, hopen]
      rw [copyLoop_eq_writeChunks]
      exact concSteps_run_chunks (chunksOf rc.data) none w

/-- Final states are unique for the deterministic step relation. -/
theorem concSteps_unique_final {a b : ConcState}
    (hab : ConcSteps a b) (hb : ConcFinal b) :
    ∀ c, ConcSteps a c → ConcFinal c → c = b := by
  induction hab using Relation.ReflTransGen.head_induction_on with
  | refl =>
      intro c hac hc
      rcases Relation.ReflTransGen.cases_head hac with heq | ⟨d, had, _⟩
      · exact heq.symm
      · exact absurd had (hb d)
  | head hstep _ ih =>
      intro c hac hc
      rcases Relation.ReflTransGen.cases_head hac with heq | ⟨d, had, hdc⟩
      · subst heq
        exact absurd hstep (hc _)
      · have hd := concStep_deterministic hstep had
        subst hd
        exact ih c hdc hc

/-- C3: the background worker plus completion channel of downloadFile
is observationally a synchronous call.  Every maximal execution of the
concurrent small-step model ends with the worker fully finished, the
sink exactly as the inline copy loop leaves it, and the caller holding
exactly the error the inline code would return; the model has a single
worker, so no two copy loops ever run concurrently. -/
theorem downloadFile_worker_equiv_sync (file : ZipFile) (w : Sink) (s : ConcState)
    (hreach : ConcSteps (initConcState file w) s) (hfinal : ConcFinal s) :
    s.sink = (downloadFile file w).1 ∧
    s.received = some (downloadFile file w).2 ∧
    s.workerRest = [] := by
  have hrun := concSteps_run file w
  have hfin :
      ConcFinal ⟨[], some (downloadFile file w).2, (downloadFile file w).1⟩ :=
    concFinal_of_done _ rfl
  have hs := concSteps_unique_final hrun hfin s hreach hfinal
  rw [hs]
  exact ⟨rfl, rfl, rfl⟩

/-- C3 witness: the concrete entry whose Open fails, with its one-step
execution. -/
theorem downloadFile_worker_equiv_sync_witness :
    (⟨[], some (some "open failed"), emptySink⟩ : ConcState).sink =
      (downloadFile badEntry emptySink).1 ∧
    (⟨[], some (some "open failed"), emptySink⟩ : ConcState).received =
      some (downloadFile badEntry emptySink).2 ∧
    (⟨[], some (some "open failed"), emptySink⟩ : ConcState).workerRest = [] :=
  downloadFile_worker_equiv_sync badEntry emptySink _
    (Relation.ReflTransGen.single (ConcStep.sync (some "open failed") [] emptySink))
    (concFinal_of_done _ rfl)

/-- A zip reader whose File slice holds the ok and the broken entry. -/
def zrOK : ZipReader := ⟨some [okEntry, badEntry]⟩

/-- A world with fresh file and stdout sinks and no file created. -/
def w0 : World := ⟨emptySink, emptySink, none⟩

/-- Environment in which ranger.NewReader fails. -/
def env1 : MainEnv := ⟨Except.error "conn refused", Except.ok zrOK, Except.ok ()⟩

/-- Environment in which zip.NewReader fails. -/
def env2 : MainEnv := ⟨Except.ok (), Except.error "not a zip", Except.ok ()⟩

/-- Environment in which os.Create fails. -/
def env3 : MainEnv := ⟨Except.ok (), Except.ok zrOK, Except.error "permission denied"⟩

/-- Environment in which every external call succeeds. -/
def envOK : MainEnv := ⟨Except.ok (), Except.ok zrOK, Except.ok ()⟩

/-- C5: every error branch of main prints its descriptive message, with
the URL, local file or entry name embedded in the text, and exits with
status 1.  The five conjuncts are the five branches: reader creation,
zip reader creation, local file creation, entry lookup, and download. -/
theorem main_error_branches_exit_one (sourceURL remoteFile localFile : String)
    (env : MainEnv) (w : World) :
    (∀ e, env.newReaderResult = Except.error e →
      mainGo sourceURL remoteFile localFile false env w =
        MainOutcome.exited 1 ("Unable to create reader for url: " ++ sourceURL ++ "\n") w) ∧
    (∀ e, env.newReaderResult = Except.ok () → env.zipReaderResult = Except.error e →
      mainGo sourceURL remoteFile localFile false env w =
        MainOutcome.exited 1 ("Unable to create zip reader for url: " ++ sourceURL ++ "\n") w) ∧
    (∀ zr e, env.newReaderResult = Except.ok () → env.zipReaderResult = Except.ok zr →
      localFile ≠ "-" → env.createResult = Except.error e →
      mainGo sourceURL remoteFile localFile false env w =
        MainOutcome.exited 1 ("Unable to create local file: " ++ localFile)
          { w with created := some localFile }) ∧
    (∀ zr e, env.newReaderResult = Except.ok () → env.zipReaderResult = Except.ok zr →
      env.createResult = Except.ok () → findFile zr remoteFile = Except.error e →
      mainGo sourceURL remoteFile localFile false env w =
        MainOutcome.exited 1 ("Unable find file: " ++ remoteFile ++ " in zip.")
          (if localFile = "-" then w else { w with created := some localFile })) ∧
    (∀ zr f e, env.newReaderResult = Except.ok () → env.zipReaderResult = Except.ok zr →
      env.createResult = Except.ok () → findFile zr remoteFile = Except.ok f →
      f.openResult = Except.error e →
      mainGo sourceURL remoteFile localFile false env w =
        MainOutcome.exited 1 ("Unable read file " ++ remoteFile ++ " from zip.")
          (if localFile = "-" then w else { w with created := some localFile })) := by
  refine ⟨?_, ?_, ?_, ?_, ?_⟩
  · intro e he
    simp [mainGo, he]
  · intro e h1 h2
    simp [mainGo, h1, h2]
  · intro zr e h1 h2 h3 h4
    simp [mainGo, h1, h2, h3, h4]
  · intro zr e h1 h2 h3 h4
    by_cases hl : localFile = "-" <;>
      simp [mainGo, h1, h2, h3, h4, hl]
  · intro zr f e h1 h2 h3 h4 h5
    by_cases hl : localFile = "-" <;>
      simp [mainGo, h1, h2, h3, h4, h5, hl, downloadFile]

/-- C5 witness: all five branches exercised at concrete inputs. -/
theorem main_error_branches_exit_one_witness :
    mainGo "http://u" "b.bin" "out" false env1 w0 =
      MainOutcome.exited 1 ("Unable to create reader for url: " ++ "http://u" ++ "\n") w0 ∧
    mainGo "http://u" "b.bin" "out" false env2 w0 =
      MainOutcome.exited 1 ("Unable to create zip reader for url: " ++ "http://u" ++ "\n") w0 ∧
    mainGo "http://u" "b.bin" "out" false env3 w0 =
      MainOutcome.exited 1 ("Unable to create local file: " ++ "out")
        { w0 with created := some "out" } ∧
    mainGo "http://u" "missing" "out" false envOK w0 =
      MainOutcome.exited 1 ("Unable find file: " ++ "missing" ++ " in zip.")
        (if ("out" : String) = "-" then w0 else { w0 with created := some "out" }) ∧
    mainGo "http://u" "broken" "out" false envOK w0 =
      MainOutcome.exited 1 ("Unable read file " ++ "broken" ++ " from zip.")
        (if ("out" : String) = "-" then w0 else { w0 with created := some "out" }) :=
  ⟨(main_error_branches_exit_one "http://u" "b.bin" "out" env1 w0).1 "conn refused" rfl,
   (main_error_branches_exit_one "http://u" "b.bin" "out" env2 w0).2.1 "not a zip" rfl rfl,
   (main_error_branches_exit_one "http://u" "b.bin" "out" env3 w0).2.2.1 zrOK
     "permission denied" rfl rfl (by decide) rfl,
   (main_error_branches_exit_one "http://u" "missing" "out" envOK w0).2.2.2.1 zrOK
     "Unable to find file" rfl rfl rfl (by decide),
   (main_error_branches_exit_one "http://u" "broken" "out" envOK w0).2.2.2.2 zrOK
     badEntry "open failed" rfl rfl rfl (by decide) rfl⟩

/-- C8: in a run where all external calls succeed, the entry bytes go
to exactly one sink chosen by the output filename: for the dash they
are appended to standard output and the created field stays as it was
(os.Create is never reached), otherwise os.Create(localFile) is
recorded and the bytes are appended to the file sink, with the other
sink untouched in both cases. -/
theorem main_output_sink_selection (sourceURL remoteFile localFile : String)
    (env : MainEnv) (w : World) (zr : ZipReader) (f : ZipFile) (rc : ZipRC)
    (h1 : env.newReaderResult = Except.ok ())
    (h2 : env.zipReaderResult = Except.ok zr)
    (h3 : env.createResult = Except.ok ())
    (h4 : findFile zr remoteFile = Except.ok f)
    (h5 : f.openResult = Except.ok rc)
    (hfs : w.fileSink.failing = false)
    (hss : w.stdoutSink.failing = false) :
    (localFile = "-" →
      mainGo sourceURL remoteFile localFile false env w =
        MainOutcome.ok { w with stdoutSink := ⟨w.stdoutSink.written ++ rc.data, false⟩ }) ∧
    (localFile ≠ "-" →
      mainGo sourceURL remoteFile localFile false env w =
        MainOutcome.ok { w with created := some localFile,
                                fileSink := ⟨w.fileSink.written ++ rc.data, false⟩ }) := by
  constructor
  · intro hl
    have hcl := copyLoop_ok rc.data w.stdoutSink hss
    simp [mainGo, h1, h2, h3, h4, h5, hl, downloadFile, hcl]
  · intro hl
    have hcl := copyLoop_ok rc.data w.fileSink hfs
    simp [mainGo, h1, h2, h3, h4, h5, hl, downloadFile, hcl]

/-- C8 witness: the same successful run directed at standard output and
at a named file. -/
theorem main_output_sink_selection_witness :
    mainGo "http://u" "b.bin" "-" false envOK w0 =
      MainOutcome.ok { w0 with stdoutSink := ⟨w0.stdoutSink.written ++ okRC.data, false⟩ } ∧
    mainGo "http://u" "b.bin" "out" false envOK w0 =
      MainOutcome.ok { w0 with created := some "out",
                               fileSink := ⟨w0.fileSink.written ++ okRC.data, false⟩ } :=
  ⟨(main_output_sink_selection "http://u" "b.bin" "-" envOK w0 zrOK okEntry okRC
      rfl rfl rfl (by decide) rfl rfl rfl).1 rfl,
   (main_output_sink_selection "http://u" "b.bin" "out" envOK w0 zrOK okEntry okRC
      rfl rfl rfl (by decide) rfl rfl rfl).2 (by decide)⟩

/-- C6: the session HTTP client is built with Timeout exactly the value
of the -t flag in seconds (time.Duration(timeout) * time.Second), the
flag defaults to 5, and the timeout bounds each request separately: a
session completes exactly when every single request fits the budget, so
three requests of a full budget each complete although their total
exceeds one budget.  The per-request meaning of Client.Timeout is
modelled from the spec, net/http being outside this repository. -/
theorem http_client_timeout_per_request :
    (∀ t : Int, (sessionHTTPClient (timeoutFlagValue (some t))).timeoutNs = t * 1000000000) ∧
    (sessionHTTPClient (timeoutFlagValue none)).timeoutNs = 5 * 1000000000 ∧
    (∀ (c : HTTPClient) (ds : List Int),
      sessionRequestsComplete c ds = true ↔ ∀ d ∈ ds, d ≤ c.timeoutNs) ∧
    (∀ t : Int, 0 < t →
      sessionRequestsComplete ⟨t⟩ [t, t, t] = true ∧ t < t + t + t) := by
  refine ⟨fun t => rfl, rfl, ?_, ?_⟩
  · intro c ds
    simp [sessionRequestsComplete, requestWithinTimeout, List.all_eq_true]
  · intro t ht
    constructor
    · simp [sessionRequestsComplete, requestWithinTimeout]
    · omega

/-- C6 witness: three requests of seven seconds each against a seven
second client budget. -/
theorem http_client_timeout_per_request_witness :
    sessionRequestsComplete ⟨(7 : Int)⟩ [7, 7, 7] = true ∧ (7 : Int) < 7 + 7 + 7 :=
  http_client_timeout_per_request.2.2.2 7 (by decide)

/-- The decimal form of a number below ten to the k has at most k
digits. -/
theorem natDigits_length_le (k : Nat) (n : Nat) (hk : 1 ≤ k) (h : n < 10 ^ k) :
    (natDigits n).length ≤ k := by
  induction k generalizing n with
  | zero => omega
  | succ k ih =>
      rw [natDigits]
      by_cases h10 : n < 10
      · simp only [h10, if_true, List.length_cons, List.length_nil]
        omega
      · have hk1 : 1 ≤ k := by
          rcases Nat.eq_zero_or_pos k with hk0 | hk0
          · subst hk0
            simp at h
            omega
          · exact hk0
        have hdiv : n / 10 < 10 ^ k := by
          apply Nat.div_lt_of_lt_mul
          calc n < 10 ^ (k + 1) := h
            _ = 10 ^ k * 10 := pow_succ 10 k
            _ = 10 * 10 ^ k := Nat.mul_comm _ _
        have hrec := ih (n / 10) hk1 hdiv
        simp only [h10, if_false, List.length_append, List.length_cons, List.length_nil]
        omega

/-- For percentages up to 100 the formatted field is exactly three
characters wide. -/
theorem sprintf3d_length (p : Int) (h0 : 0 ≤ p) (h1 : p ≤ 100) :
    (sprintf3d p).length = 3 := by
  have hneg : ¬ p < 0 := by omega
  have hlt : p.toNat < 10 ^ 3 := by
    have : p.toNat ≤ 100 := by omega
    omega
  have hle := natDigits_length_le 3 p.toNat (by omega) hlt
  simp only [sprintf3d, hneg, if_false, List.length_append, List.length_replicate]
  omega

/-- C10: for progress in [0, 100] and terminal width at least 40, the
rendered bar has total length (W - 40) + 8 independent of progress, and
is the open bracket, (progress * (W - 40)) / 100 equal signs, one
arrow head, spaces filling the remaining bar cells, the closing bracket
and space, a three character percentage field, and the percent sign. -/
theorem progressBar_shape (W p : Int) (hW : 40 ≤ W) (hp0 : 0 ≤ p) (hp1 : p ≤ 100) :
    (progressBarRender W p).length = (W - 40).toNat + 8 ∧
    progressBarRender W p =
      ['['] ++ List.replicate ((p * (W - 40)).toNat / 100) '=' ++ ['>']
            ++ List.replicate ((W - 40).toNat - (p * (W - 40)).toNat / 100) ' '
            ++ [']', ' '] ++ sprintf3d p ++ ['%'] ∧
    (sprintf3d p).length = 3 := by
  obtain ⟨u, hu⟩ : ∃ u : Nat, W - 40 = (u : Int) := ⟨(W - 40).toNat, by omega⟩
  obtain ⟨pn, hpn⟩ : ∃ pn : Nat, p = (pn : Int) := ⟨p.toNat, by omega⟩
  subst hpn
  have hpn100 : pn ≤ 100 := by omega
  have hprod : (pn : Int) * (W - 40) = ((pn * u : Nat) : Int) := by
    rw [hu]
    exact (Nat.cast_mul pn u).symm
  have hdiv : Int.div ((pn : Int) * (W - 40)) 100 = ((pn * u / 100 : Nat) : Int) := by
    rw [hprod]
    rfl
  have hk_le : pn * u / 100 ≤ u := by
    have hmul : pn * u ≤ 100 * u := Nat.mul_le_mul_right u hpn100
    have hdd : pn * u / 100 ≤ 100 * u / 100 := Nat.div_le_div_right hmul
    rwa [Nat.mul_div_cancel_left u (by norm_num : 0 < 100)] at hdd
  have htonat1 : (Int.div ((pn : Int) * (W - 40)) 100).toNat = pn * u / 100 := by
    rw [hdiv]
    rfl
  have htonat2 :
      ((W - 40) - Int.div ((pn : Int) * (W - 40)) 100).toNat = u - pn * u / 100 := by
    rw [hdiv, hu]
    omega
  have htonatp : ((pn : Int) * (W - 40)).toNat = pn * u := by
    rw [hprod]
    rfl
  have htonatu : (W - 40).toNat = u := by omega
  have hsp := sprintf3d_length (pn : Int) hp0 hp1
  refine ⟨?_, ?_, hsp⟩
  · simp only [progressBarRender, htonat1, htonat2, htonatu, List.length_append,
      List.length_replicate, List.length_cons, List.length_nil, hsp]
    omega
  · simp only [progressBarRender, htonat1, htonat2, htonatp, htonatu]

/-- C10 witness: an 80 column terminal at half progress. -/
theorem progressBar_shape_witness :
    (progressBarRender 80 50).length = ((80 : Int) - 40).toNat + 8 ∧
    progressBarRender 80 50 =
      ['['] ++ List.replicate (((50 : Int) * ((80 : Int) - 40)).toNat / 100) '=' ++ ['>']
            ++ List.replicate
                (((80 : Int) - 40).toNat - ((50 : Int) * ((80 : Int) - 40)).toNat / 100) ' '
            ++ [']', ' '] ++ sprintf3d 50 ++ ['%'] ∧
    (sprintf3d 50).length = 3 :=
  progressBar_shape 80 50 (by decide) (by decide) (by decide)
